import Mathlib

/-!
Verification of the ClickUp → Monday sync repository.

Shallow embedding of the batch orchestrator (`src/lib/sync/batch-processor.ts`),
the rate limiter / exponential backoff (`src/lib/utils/rate-limiter.ts`),
the field mapper (`src/lib/replication/field-mapper.ts`),
the duplicate checker (`src/lib/sync/duplicate-checker.ts`),
the file sync engine (`src/lib/sync/file-sync.ts`),
the Monday API item search (`src/lib/api/monday.ts`) and
the list replicator's database writes (`src/lib/replication/list-replicator.ts`).

Strings are modelled as `List Char`; JavaScript numbers appearing in the
field-transformation rules are modelled as `Option ℚ` where `none` plays the
role of `NaN`; machine time stamps are modelled as `Int` (milliseconds).
-/

namespace ClickUpMondaySync

/-! ## BatchProcessor.createBatches (batch-processor.ts, lines 234-244) -/

/-- The chunking loop of `createBatches`:
`for (let i = 0; i < items.length; i += size) batches.push(items.slice(i, i + size))`,
rendered as recursion on the remaining list.  `createBatches` only reaches this
loop with `0 < size < items.length`; the `size = 0` equation is unreachable
from `createBatches` (the JS loop would not advance there). -/
def chunkGo (size : Nat) (items : List α) : List (List α) :=
  match items, size with
  | [], _ => []
  | l, 0 => [l]
  | a :: rest, size + 1 =>
    (a :: rest).take (size + 1) :: chunkGo (size + 1) ((a :: rest).drop (size + 1))
termination_by items.length
decreasing_by
  simp only [List.length_drop, List.length_cons]
  omega

/-- Embeds `BatchProcessor.createBatches` (batch-processor.ts, lines 234-244):
`if (size === 0 || size >= items.length) return [items];` then the slicing loop. -/
def createBatches (items : List α) (size : Nat) : List (List α) :=
  if size = 0 ∨ items.length ≤ size then [items]
  else chunkGo size items

/-! ## RateLimiter (rate-limiter.ts, lines 9-78) -/

/-- Configuration passed to the `RateLimiter` constructor
(`maxRequests`, `windowMs`, optional `minInterval`). -/
structure RateLimiterConfig where
  maxRequests : Nat
  windowMs : Int
  minInterval : Option Int := none
deriving Repr, DecidableEq

/-- Mutable state of a `RateLimiter` instance: the recorded request
timestamps and the time of the last recorded request. -/
structure RateLimiterState where
  requests : List Int
  lastRequestTime : Int := 0
deriving Repr, DecidableEq

/-- Embeds `RateLimiter.checkLimit` (rate-limiter.ts, lines 18-27): drops the
timestamps that have left the sliding window, then reports whether fewer than
`maxRequests` remain.  `now` stands for `Date.now()`.  Returns the probe
result together with the mutated state. -/
def checkLimit (cfg : RateLimiterConfig) (now : Int) (s : RateLimiterState) :
    Bool × RateLimiterState :=
  let kept := s.requests.filter (fun time => decide (now - time < cfg.windowMs))
  (decide (kept.length < cfg.maxRequests), { s with requests := kept })

/-- Embeds `RateLimiter.recordRequest` (rate-limiter.ts, lines 57-60): pushes the
current timestamp and remembers it as the last request time. -/
def recordRequest (now : Int) (s : RateLimiterState) : RateLimiterState :=
  { requests := s.requests ++ [now], lastRequestTime := now }

/-- Recording a list of timestamps in order, starting from the fresh state
(the constructor initialises `requests` to `[]`). -/
def recordAll (times : List Int) : RateLimiterState :=
  times.foldl (fun s t => recordRequest t s) { requests := [] }

/-! ## Decimal rendering of numbers interpolated into message strings -/

/-- One decimal digit as a character. -/
def digitChar (n : Nat) : Char :=
  match n with
  | 0 => '0' | 1 => '1' | 2 => '2' | 3 => '3' | 4 => '4'
  | 5 => '5' | 6 => '6' | 7 => '7' | 8 => '8' | _ => '9'

/-- Accumulator loop producing the decimal digits of `n` before `acc`.  The
`fuel` argument only forces structural termination; `natDigits` passes `n + 1`,
which always suffices because `n / 10 < n` for `n ≥ 10`. -/
def natDigitsAux (fuel : Nat) (n : Nat) (acc : List Char) : List Char :=
  match fuel with
  | 0 => acc
  | fuel + 1 =>
    if n < 10 then digitChar n :: acc
    else natDigitsAux fuel (n / 10) (digitChar (n % 10) :: acc)

/-- The decimal rendering of a natural number, as JS template interpolation
`${n}` produces for the non-negative integers used by the code. -/
def natDigits (n : Nat) : List Char := natDigitsAux (n + 1) n []

/-! ## ExponentialBackoff (rate-limiter.ts, lines 81-141) -/

/-- A JavaScript `Error` as far as the backoff wrapper inspects it: `message`
and an optional `code` (rate-limiter.ts line 107). -/
structure JsError where
  message : List Char
  code : Option (List Char) := none
deriving Repr, DecidableEq

/-- The three constructor arguments of `ExponentialBackoff`, with the source
defaults. -/
structure BackoffConfig where
  maxAttempts : Nat := 3
  baseDelay : Nat := 1000
  maxDelay : Nat := 30000
deriving Repr, DecidableEq

/-- JavaScript `String.prototype.includes`: substring containment, on the
`List Char` rendering of strings. -/
def containsSub (pat s : List Char) : Bool := decide (pat <:+: s)

/-- Embeds `error.message?.includes(errMsg) || error.code?.includes(errMsg)`
(rate-limiter.ts line 107). -/
def errorMatches (e : JsError) (pat : List Char) : Bool :=
  containsSub pat e.message ||
    (match e.code with
     | some c => containsSub pat c
     | none => false)

/-- The guard of rate-limiter.ts lines 105-113: a supplied, non-empty
`retryableErrors` list none of whose entries matches the error makes `execute`
re-throw it immediately. -/
def throwsNonRetryable (retryable : Option (List (List Char))) (e : JsError) :
    Bool :=
  match retryable with
  | some pats => !pats.isEmpty && !(pats.any fun p => errorMatches e p)
  | none => false

/-- Message of the terminal error of rate-limiter.ts line 116:
`Max retry attempts (${maxAttempts}) exceeded: ${error.message}`. -/
def maxRetryMessage (maxAttempts : Nat) (cause : List Char) : List Char :=
  "Max retry attempts (".toList ++ natDigits maxAttempts ++
    ") exceeded: ".toList ++ cause

/-- Outcome of `ExponentialBackoff.execute`: the returned value together with
the value of the `attempt` field after the call and the chronological list of
delays slept, or one of the two thrown errors. -/
inductive ExecOutcome (V : Type u) where
  | ok (value : V) (finalAttempt : Nat) (delays : List Nat)
  | errNonRetryable (e : JsError) (delays : List Nat)
  | errExhausted (e : JsError) (delays : List Nat)
deriving Repr, DecidableEq

/-- The `while (true)` loop of `ExponentialBackoff.execute` (rate-limiter.ts,
lines 93-128).  The operation is modelled as a function from the call number
(0-based) to its result; `attempt` is the instance field `this.attempt` (set to
0 on entry by line 94); `delays` accumulates the waits of line 125 in
chronological order. -/
def executeAux (cfg : BackoffConfig) (retryable : Option (List (List Char)))
    (op : Nat → Except JsError V) (attempt callIdx : Nat) (delays : List Nat) :
    ExecOutcome V :=
  match op callIdx with
  | .ok v => .ok v 0 delays
  | .error e =>
    if throwsNonRetryable retryable e then .errNonRetryable e delays
    else if cfg.maxAttempts ≤ attempt + 1 then
      .errExhausted ⟨maxRetryMessage cfg.maxAttempts e.message, none⟩ delays
    else
      executeAux cfg retryable op (attempt + 1) (callIdx + 1)
        (delays ++ [min (cfg.baseDelay * 2 ^ (attempt + 1 - 1)) cfg.maxDelay])
termination_by cfg.maxAttempts - attempt
decreasing_by omega

/-- Embeds `ExponentialBackoff.execute` (rate-limiter.ts, lines 93-128): resets
`this.attempt` to 0 and runs the retry loop. -/
def execute (cfg : BackoffConfig) (retryable : Option (List (List Char)))
    (op : Nat → Except JsError V) : ExecOutcome V :=
  executeAux cfg retryable op 0 0 []

/-! ## JavaScript value model for the FieldMapper numeric rules
(field-mapper.ts, lines 112-120) -/

/-- The fragment of JavaScript values the numeric transformation rules of
`FieldMapper.getTransformationRule` inspect: `null`, `undefined`, strings,
numbers (`none` standing for `NaN`) and booleans. -/
inductive JSVal where
  | vnull
  | vundef
  | vstr (s : List Char)
  | vnum (n : Option ℚ)
  | vbool (b : Bool)
deriving Repr, DecidableEq

/-- JavaScript truthiness on the modelled fragment: `null`, `undefined`,
`NaN`, `0`, the empty string and `false` are falsy. -/
def truthy : JSVal → Bool
  | .vnull => false
  | .vundef => false
  | .vstr s => !s.isEmpty
  | .vnum none => false
  | .vnum (some q) => decide (q ≠ 0)
  | .vbool b => b

/-- JavaScript `a || b` on the modelled fragment. -/
def jsOr (a b : JSVal) : JSVal := if truthy a then a else b

/-- One step of decimal-digit consumption: reads a maximal digit prefix,
returning its value, the number of digits read, and the rest. -/
def parseDigitsAux : List Char → Nat → Nat → Nat × Nat × List Char
  | [], acc, cnt => (acc, cnt, [])
  | c :: rest, acc, cnt =>
    if c.isDigit then parseDigitsAux rest (acc * 10 + (c.toNat - '0'.toNat)) (cnt + 1)
    else (acc, cnt, c :: rest)

/-- Model of the JavaScript builtin `parseFloat` on strings: skips leading
spaces, reads an optional sign, then a maximal run of digits with an optional
single fractional part, yielding `NaN` (`none`) when no digit was read.
(Exponent notation and `Infinity` are outside the model; no input in this
development uses them.) -/
def parseFloatStr (s : List Char) : Option ℚ :=
  let t := s.dropWhile (fun c => c = ' ')
  let signAndRest : Bool × List Char :=
    match t with
    | '-' :: rest => (true, rest)
    | '+' :: rest => (false, rest)
    | _ => (false, t)
  let ipart := parseDigitsAux signAndRest.2 0 0
  let fpart :=
    match ipart.2.2 with
    | '.' :: rest2 => parseDigitsAux rest2 0 0
    | _ => (0, 0, ipart.2.2)
  if ipart.2.1 = 0 ∧ fpart.2.1 = 0 then none
  else
    let mag : ℚ := (ipart.1 : ℚ) + (fpart.1 : ℚ) / ((10 : ℚ) ^ fpart.2.1)
    some (if signAndRest.1 then -mag else mag)

/-- Models `parseFloat` on the modelled JavaScript values (the builtin stringifies
its argument first: numbers parse back to themselves, `NaN`, `null`,
`undefined` and booleans stringify to non-numeric text). -/
def parseFloat : JSVal → Option ℚ
  | .vstr s => parseFloatStr s
  | .vnum n => n
  | .vbool _ => none
  | .vnull => none
  | .vundef => none

/-- The `'number'` entry of `FieldMapper.getTransformationRule`
(field-mapper.ts lines 112-115):
`if (value === null || value === undefined) return null; return parseFloat(value) || 0;`. -/
def numberRule (v : JSVal) : JSVal :=
  if v = .vnull ∨ v = .vundef then .vnull
  else jsOr (.vnum (parseFloat v)) (.vnum (some 0))

/-- The `'currency'` entry of `FieldMapper.getTransformationRule`
(field-mapper.ts lines 117-120):
`if (!value) return null; return parseFloat(value) || 0;`. -/
def currencyRule (v : JSVal) : JSVal :=
  if truthy v = false then .vnull
  else jsOr (.vnum (parseFloat v)) (.vnum (some 0))

/-! ## BatchProcessor per-item results and aggregate counting
(batch-processor.ts, lines 18-26, 79-87 and 219-228) -/

/-- Embeds `TaskResult` (batch-processor.ts lines 18-26), restricted to the fields
that the aggregate counting of `processBatch` reads. -/
structure TaskResult where
  taskId : List Char
  success : Bool
  error : Option (List Char) := none
  retryCount : Nat := 0
deriving Repr, DecidableEq

/-- Which aggregate counter of `processBatch` a per-item result increments. -/
inductive ResultClass where
  | countedSuccessful
  | countedSkipped
  | countedFailed
deriving Repr, DecidableEq

/-- The string literal `'skipped'` of batch-processor.ts line 82. -/
def skippedLit : List Char := ['s', 'k', 'i', 'p', 'p', 'e', 'd']

/-- The counting of batch-processor.ts lines 79-87: `result.success` counts as
successful, otherwise `result.error?.includes('skipped')` counts as skipped,
otherwise as failed (`undefined` being falsy when `error` is absent). -/
def classifyResult (r : TaskResult) : ResultClass :=
  if r.success then .countedSuccessful
  else if (match r.error with
           | some e => containsSub skippedLit e
           | none => false) then .countedSkipped
  else .countedFailed

/-- The error string of batch-processor.ts line 225 for a task whose retries
are exhausted: `Failed after ${maxRetries} retries: ${lastError?.message}`. -/
def failedAfterMessage (maxRetries : Nat) (cause : List Char) : List Char :=
  "Failed after ".toList ++ natDigits maxRetries ++
    " retries: ".toList ++ cause

/-! ## Duplicate checker (duplicate-checker.ts) and file sync engine
(file-sync.ts), with the Monday item search (monday.ts, lines 228-233) -/

/-- JavaScript `toLowerCase` on the `List Char` rendering of strings. -/
def lowerStr (s : List Char) : List Char := s.map Char.toLower

/-- A Monday asset as `DuplicateChecker` reads it. -/
structure MondayAsset where
  name : List Char
  file_size : Nat
deriving Repr, DecidableEq

/-- A ClickUp attachment as the sync engine reads it. -/
structure ClickUpAttachment where
  title : List Char
  size : Nat
  extension : Option (List Char) := none
deriving Repr, DecidableEq

/-- A Monday item as the file-sync engine reads it: id, display name and the
pre-fetched assets. -/
structure MondayItem where
  id : List Char
  name : List Char
  assets : List MondayAsset := []
deriving Repr, DecidableEq

/-- A ClickUp task as the file-sync workflow reads it. -/
structure ClickUpTask where
  id : List Char
  name : List Char
  attachments : List ClickUpAttachment := []
deriving Repr, DecidableEq

/-- Embeds `MondayAPI.searchItemsByName` (monday.ts, lines 228-233): fetches the
board's items and keeps those whose lowercased name *contains* the lowercased
query. -/
def searchItemsByName (items : List MondayItem) (searchQuery : List Char) :
    List MondayItem :=
  items.filter fun item => containsSub (lowerStr searchQuery) (lowerStr item.name)

/-- The per-task matching strategy of `FileSyncEngine.findMatchingItems`
(file-sync.ts, lines 285-301): exact case-insensitive name equality first,
then containment in either direction.  (This helper exists in the source but
is not called from the sync workflow.) -/
def findMatchStrategies (items : List MondayItem) (taskName : List Char) :
    Option MondayItem :=
  match items.find? (fun item => decide (lowerStr item.name = lowerStr taskName)) with
  | some m => some m
  | none =>
    items.find? fun item =>
      containsSub (lowerStr taskName) (lowerStr item.name) ||
        containsSub (lowerStr item.name) (lowerStr taskName)

/-- Embeds `DuplicateChecker.checkByNameAndSize` (duplicate-checker.ts, lines 15-34):
the first pre-existing asset with case-insensitively equal name and equal byte
size, if any. -/
def checkByNameAndSize (att : ClickUpAttachment) (assets : List MondayAsset) :
    Option MondayAsset :=
  assets.find? fun asset =>
    decide (lowerStr asset.name = lowerStr att.title) &&
      decide (asset.file_size = att.size)

/-- Embeds `DuplicateChecker.isWithinSizeLimit` (duplicate-checker.ts, lines 90-93),
default limit 500 MB. -/
def isWithinSizeLimit (fileSize : Nat) (maxSizeBytes : Option Nat) : Bool :=
  fileSize ≤ maxSizeBytes.getD (500 * 1024 * 1024)

/-- Embeds `DuplicateChecker.isAllowedFileType` (duplicate-checker.ts, lines 78-85):
everything is allowed when no restriction list is given; otherwise the
lowercased last dot-separated component must be in the list. -/
def isAllowedFileType (filename : List Char)
    (allowedExtensions : Option (List (List Char))) : Bool :=
  match allowedExtensions with
  | none => true
  | some [] => true
  | some exts =>
    exts.contains (((filename.splitOn '.').getLast?).map lowerStr |>.getD [])

/-- Embeds `DuplicateChecker.validateFile` (duplicate-checker.ts, lines 98-122),
called by `transferAttachment` with no options: size within the default
limit and the (unrestricted) extension check. -/
def validateFile (att : ClickUpAttachment) : Bool :=
  isWithinSizeLimit att.size none && isAllowedFileType att.title none

/-- Status column of a `file_transfers` row. -/
inductive TransferStatus where
  | pending
  | transferred
  | skipped
  | failed
deriving Repr, DecidableEq

/-- A `file_transfers` row as `FileSyncEngine.logFileTransfer`
(file-sync.ts, lines 237-254) inserts it. -/
structure TransferRecord where
  clickup_task_id : List Char
  monday_item_id : List Char
  file_name : List Char
  file_size : Nat
  status : TransferStatus
deriving Repr, DecidableEq

/-- Embeds `FileSyncEngine.transferAttachment` (file-sync.ts, lines 143-189).
`upl` models the combined remote download / ensure-column / upload sequence:
`.ok` when it completes, `.error` with the thrown message otherwise.  Returns
the `file_transfers` rows inserted and the outcome (`.error` when the
exception propagates to the caller).  A validation rejection only prints a
warning and returns; a duplicate is logged as `'skipped'`; a completed upload
is logged as `'transferred'`; a throw inserts nothing. -/
def transferAttachment (taskId : List Char) (att : ClickUpAttachment)
    (itemId : List Char) (existingAssets : List MondayAsset) (skipDuplicates : Bool)
    (upl : Except (List Char) Unit) :
    List TransferRecord × Except (List Char) Unit :=
  if validateFile att = false then ([], .ok ())
  else if skipDuplicates && (checkByNameAndSize att existingAssets).isSome then
    ([⟨taskId, itemId, att.title, att.size, .skipped⟩], .ok ())
  else
    match upl with
    | .ok _ => ([⟨taskId, itemId, att.title, att.size, .transferred⟩], .ok ())
    | .error e => ([], .error e)

/-- The attachment loop of `FileSyncEngine.syncTaskFiles` (file-sync.ts,
lines 119-132): attachments are processed in order; the first throw is
re-thrown, ending the loop (records already inserted persist). -/
def syncAttachmentsLoop (taskId itemId : List Char)
    (existingAssets : List MondayAsset) (skipDuplicates : Bool)
    (upl : ClickUpAttachment → Except (List Char) Unit) :
    List ClickUpAttachment → List TransferRecord × Except (List Char) Unit
  | [] => ([], .ok ())
  | a :: rest =>
    match transferAttachment taskId a itemId existingAssets skipDuplicates (upl a) with
    | (recs, .ok _) =>
      let tail := syncAttachmentsLoop taskId itemId existingAssets skipDuplicates upl rest
      (recs ++ tail.1, tail.2)
    | (recs, .error e) => (recs, .error e)

/-- Embeds `FileSyncEngine.syncTaskFiles` (file-sync.ts, lines 99-138): searches the
board by the task's name, takes the *first* match (`mondayItems[0]`), warns
and returns when there is none, then runs the attachment loop against the
matched item's pre-fetched assets. -/
def syncTaskFiles (task : ClickUpTask) (boardItems : List MondayItem)
    (skipDuplicates : Bool) (upl : ClickUpAttachment → Except (List Char) Unit) :
    List TransferRecord × Except (List Char) Unit :=
  match searchItemsByName boardItems task.name with
  | [] => ([], .ok ())
  | item :: _ =>
    syncAttachmentsLoop task.id item.id item.assets skipDuplicates upl
      task.attachments

/-- The target item `syncTaskFiles` operates on, when any. -/
def chosenItem (boardItems : List MondayItem) (taskName : List Char) :
    Option MondayItem :=
  (searchItemsByName boardItems taskName).head?

/-- Embeds `FileSyncResult` (file-sync.ts, lines 9-14); errors are kept as their
messages. -/
structure FileSyncResult where
  success : Bool
  filesTransferred : Nat
  filesSkipped : Nat
  errors : List (List Char)
deriving Repr, DecidableEq

/-- The task loop of `FileSyncEngine.syncFiles` (file-sync.ts, lines 58-78):
a task whose sync returns adds its *attachment count* to `filesTransferred`;
a task whose sync throws records the error in the in-memory result and the
loop continues; `filesSkipped` is never touched. -/
def syncFilesLoop (boardItems : List MondayItem) (skipDuplicates : Bool)
    (upl : ClickUpTask → ClickUpAttachment → Except (List Char) Unit) :
    List ClickUpTask → FileSyncResult → List TransferRecord →
      FileSyncResult × List TransferRecord
  | [], res, recs => (res, recs)
  | t :: rest, res, recs =>
    match syncTaskFiles t boardItems skipDuplicates (upl t) with
    | (trecs, .ok _) =>
      syncFilesLoop boardItems skipDuplicates upl rest
        { res with filesTransferred := res.filesTransferred + t.attachments.length }
        (recs ++ trecs)
    | (trecs, .error e) =>
      syncFilesLoop boardItems skipDuplicates upl rest
        { res with success := false, errors := res.errors ++ [e] }
        (recs ++ trecs)

/-- Embeds `FileSyncEngine.syncFiles` (file-sync.ts, lines 37-94) after the target
tasks have been fetched, returning the in-memory result together with all
persisted `file_transfers` rows. -/
def syncFiles (tasks : List ClickUpTask) (boardItems : List MondayItem)
    (skipDuplicates : Bool)
    (upl : ClickUpTask → ClickUpAttachment → Except (List Char) Unit) :
    FileSyncResult × List TransferRecord :=
  syncFilesLoop boardItems skipDuplicates upl tasks
    ⟨true, 0, 0, []⟩ []

/-! ## ListReplicator task-mapping persistence
(list-replicator.ts, lines 243-252 and 312-322) -/

/-- A row of the `task_mappings` table as the replicator inserts it. -/
structure TaskMappingRow where
  replication_id : List Char
  clickup_task_id : List Char
  monday_item_id : List Char
  clickup_parent_id : Option (List Char) := none
  monday_parent_id : Option (List Char) := none
  sync_status : List Char
deriving Repr, DecidableEq

/-- The operations the job store offers on `task_mappings`; an update could
overwrite `monday_item_id` of the rows matching a task id. -/
inductive TaskMappingOp where
  | insert (row : TaskMappingRow)
  | update (clickup_task_id : List Char) (newMondayItemId : List Char)
deriving Repr, DecidableEq

/-- Applying one operation to the table state. -/
def applyTaskMappingOp (table : List TaskMappingRow) :
    TaskMappingOp → List TaskMappingRow
  | .insert row => table ++ [row]
  | .update tid newId =>
    table.map fun r =>
      if r.clickup_task_id = tid then { r with monday_item_id := newId } else r

def applyTaskMappingOps (table : List TaskMappingRow)
    (ops : List TaskMappingOp) : List TaskMappingRow :=
  ops.foldl applyTaskMappingOp table

/-- The `task_mappings` write of `ListReplicator.migrateSubtask`
(list-replicator.ts, lines 313-322): one insert carrying the created
subitem's id, the parent item's id and `sync_status: 'synced'`. -/
def migrateSubtaskOp (replicationId subtaskId subitemId parentTaskId
    parentItemId : List Char) : TaskMappingOp :=
  .insert
    { replication_id := replicationId
      clickup_task_id := subtaskId
      monday_item_id := subitemId
      clickup_parent_id := some parentTaskId
      monday_parent_id := some parentItemId
      sync_status := "synced".toList }

/-- The `task_mappings` writes of one `ListReplicator.migrateTask` run
(list-replicator.ts, lines 244-252 followed by the subtask recursion of lines
279-281): an insert for the created item, then one `migrateSubtaskOp` insert
per created subitem (`subpairs` pairs each subtask id with its created
subitem id). -/
def migrateTaskOps (replicationId taskId itemId : List Char)
    (parentId : Option (List Char))
    (subpairs : List (List Char × List Char)) : List TaskMappingOp :=
  .insert
    { replication_id := replicationId
      clickup_task_id := taskId
      monday_item_id := itemId
      clickup_parent_id := parentId
      monday_parent_id := none
      sync_status := "synced".toList } ::
  subpairs.map fun p => migrateSubtaskOp replicationId p.1 p.2 taskId itemId

/-! ## BatchProcessor.processParallel (batch-processor.ts, lines 144-175) -/

/-- The inner fill loop of `processParallel` (lines 157-161): shift tasks off
the queue into the in-flight list while it is below `maxParallel`.  In-flight
promises are identified by allocation number (`nid`), modelling JavaScript
object identity of promise references. -/
def fillLoop (maxParallel : Nat) :
    List τ → List (Nat × τ) → Nat → List τ × List (Nat × τ) × Nat
  | [], infl, nid => ([], infl, nid)
  | t :: rest, infl, nid =>
    if infl.length < maxParallel then
      fillLoop maxParallel rest (infl ++ [(nid, t)]) (nid + 1)
    else (t :: rest, infl, nid)

/-- The outer `while` loop of `processParallel` (lines 155-172), under the
schedule in which every started operation has already settled, so that
`Promise.race` yields the first in-flight promise's result.  Line 168 searches
the in-flight list for `Promise.resolve(result)` — a *freshly allocated*
promise (a new allocation number), compared by object identity.  `fuel` bounds
the number of loop iterations: `none` means the loop is still running when the
fuel runs out (or that `Promise.race([])` suspended forever). -/
def runParallel (process : τ → ρ) (maxParallel : Nat) :
    Nat → List τ → List (Nat × τ) → List ρ → Nat → Option (List ρ)
  | 0, _, _, _, _ => none
  | fuel + 1, queue, inflight, results, nextId =>
    if queue.isEmpty && inflight.isEmpty then some results
    else
      match fillLoop maxParallel queue inflight nextId with
      | (queue1, inflight1, freshId) =>
        match inflight1 with
        | [] => none
        | (_, t) :: _ =>
          let result := process t
          let inflight2 :=
            match inflight1.findIdx? (fun p => p.1 == freshId) with
            | some i => inflight1.eraseIdx i
            | none => inflight1
          runParallel process maxParallel fuel queue1 inflight2
            (results ++ [result]) (freshId + 1)

/-! # Theorems -/

theorem chunkGo_flatten (size : Nat) (items : List α) :
    (chunkGo size items).flatten = items := by
  induction size, items using chunkGo.induct with
  | case1 => simp [chunkGo]
  | case2 l => simp [chunkGo]
  | case3 a rest size ih =>
    rw [chunkGo]
    simp only [List.flatten_cons, ih, List.take_append_drop]

theorem chunkGo_length (size : Nat) (items : List α) (hs : 0 < size) :
    (chunkGo size items).length = (items.length + size - 1) / size := by
  induction size, items using chunkGo.induct with
  | case1 size =>
    rw [chunkGo]
    simp only [List.length_nil, Nat.zero_add]
    exact (Nat.div_eq_of_lt (by omega)).symm
  | case2 l => omega
  | case3 a rest size ih =>
    rw [chunkGo]
    simp only [List.length_cons]
    rw [ih (by omega)]
    simp only [List.length_drop, List.length_cons]
    have hr : rest.length + 1 + (size + 1) - 1 = (rest.length + 1 - 1) + (size + 1) := by
      omega
    rw [hr, Nat.add_div_right _ (by omega)]
    rcases le_or_lt (rest.length + 1) (size + 1) with h | h
    · have h0 : rest.length + 1 - (size + 1) = 0 := by omega
      have h2 : rest.length + 1 - 1 = rest.length := by omega
      rw [h0, h2, Nat.zero_add, Nat.div_eq_of_lt (by omega),
        Nat.div_eq_of_lt (by omega)]
    · have h1 : rest.length + 1 - (size + 1) + (size + 1) - 1 = rest.length := by
        omega
      have h2 : rest.length + 1 - 1 = rest.length := by omega
      rw [h1, h2]

theorem executeAux_ok (cfg : BackoffConfig) (retryable : Option (List (List Char)))
    (op : Nat → Except JsError V) :
    ∀ (k attempt callIdx : Nat) (acc : List Nat) (v : V),
      attempt + k < cfg.maxAttempts →
      (∀ i, i < k → ∃ e, op (callIdx + i) = .error e ∧
        throwsNonRetryable retryable e = false) →
      op (callIdx + k) = .ok v →
      executeAux cfg retryable op attempt callIdx acc =
        .ok v 0 (acc ++ (List.range k).map fun i =>
          min (cfg.baseDelay * 2 ^ (attempt + i)) cfg.maxDelay) := by
  intro k
  induction k with
  | zero =>
    intro attempt callIdx acc v _ _ hok
    rw [executeAux]
    rw [Nat.add_zero] at hok
    rw [hok]
    simp
  | succ k ih =>
    intro attempt callIdx acc v hlt herr hok
    obtain ⟨e, he, hnr⟩ := herr 0 (by omega)
    rw [Nat.add_zero] at he
    rw [executeAux, he]
    dsimp only
    rw [hnr]
    simp only [Bool.false_eq_true, if_false]
    have hcond : ¬ cfg.maxAttempts ≤ attempt + 1 := by omega
    rw [if_neg hcond]
    have step := ih (attempt + 1) (callIdx + 1)
      (acc ++ [min (cfg.baseDelay * 2 ^ (attempt + 1 - 1)) cfg.maxDelay]) v
      (by omega)
      (fun i hi => by
        have := herr (i + 1) (by omega)
        simpa [Nat.add_assoc, Nat.add_comm 1 i] using this)
      (by
        have : callIdx + 1 + k = callIdx + (k + 1) := by omega
        rw [this, hok])
    rw [step]
    congr 1
    rw [List.append_assoc]
    congr 1
    rw [List.range_succ_eq_map]
    simp only [List.map_cons, Nat.add_zero, List.map_map, List.singleton_append]
    congr 1
    apply List.map_congr_left
    intro i _
    simp only [Function.comp_apply]
    congr 3
    omega

theorem executeAux_exhausted (cfg : BackoffConfig)
    (retryable : Option (List (List Char))) (op : Nat → Except JsError V)
    (es : Nat → JsError) :
    ∀ (k attempt callIdx : Nat) (acc : List Nat),
      k + 1 = max (cfg.maxAttempts - attempt) 1 →
      (∀ i, i ≤ k → op (callIdx + i) = .error (es (callIdx + i)) ∧
        throwsNonRetryable retryable (es (callIdx + i)) = false) →
      executeAux cfg retryable op attempt callIdx acc =
        .errExhausted
          ⟨maxRetryMessage cfg.maxAttempts (es (callIdx + k)).message, none⟩
          (acc ++ (List.range k).map fun i =>
            min (cfg.baseDelay * 2 ^ (attempt + i)) cfg.maxDelay) := by
  intro k
  induction k with
  | zero =>
    intro attempt callIdx acc hk herr
    obtain ⟨he, hnr⟩ := herr 0 (by omega)
    rw [Nat.add_zero] at he hnr
    rw [executeAux, he]
    dsimp only
    rw [hnr]
    simp only [Bool.false_eq_true, if_false]
    have hcond : cfg.maxAttempts ≤ attempt + 1 := by omega
    rw [if_pos hcond]
    simp
  | succ k ih =>
    intro attempt callIdx acc hk herr
    obtain ⟨he, hnr⟩ := herr 0 (by omega)
    rw [Nat.add_zero] at he hnr
    rw [executeAux, he]
    dsimp only
    rw [hnr]
    simp only [Bool.false_eq_true, if_false]
    have hcond : ¬ cfg.maxAttempts ≤ attempt + 1 := by omega
    rw [if_neg hcond]
    have step := ih (attempt + 1) (callIdx + 1)
      (acc ++ [min (cfg.baseDelay * 2 ^ (attempt + 1 - 1)) cfg.maxDelay])
      (by omega)
      (fun i hi => by
        have := herr (i + 1) (by omega)
        simpa [Nat.add_assoc, Nat.add_comm 1 i] using this)
    rw [step]
    have harg : callIdx + 1 + k = callIdx + (k + 1) := by omega
    rw [harg]
    congr 1
    rw [List.append_assoc]
    congr 1
    rw [List.range_succ_eq_map]
    simp only [List.map_cons, Nat.add_zero, List.map_map, List.singleton_append]
    congr 1
    apply List.map_congr_left
    intro i _
    simp only [Function.comp_apply]
    congr 3
    omega

theorem recordAll_requests (times : List Int) : (recordAll times).requests = times := by
  suffices h : ∀ (s : RateLimiterState),
      (times.foldl (fun s t => recordRequest t s) s).requests = s.requests ++ times by
    simpa using h { requests := [] }
  induction times with
  | nil => intro s; simp
  | cons t rest ih =>
    intro s
    rw [List.foldl_cons, ih]
    simp [recordRequest]

/-- C6: for every list of N items and every batch size b with 0 < b < N,
`createBatches` produces ⌈N/b⌉ batches whose in-order concatenation equals the
original sequence; for b = 0 it produces exactly one batch containing all N
items. -/
theorem createBatches_partition (items : List α) (b : Nat) :
    (0 < b → b < items.length →
      (createBatches items b).length = (items.length + b - 1) / b ∧
        (createBatches items b).flatten = items) ∧
    (b = 0 → createBatches items b = [items]) := by
  constructor
  · intro hb hlt
    have hcond : ¬(b = 0 ∨ items.length ≤ b) := by omega
    rw [createBatches, if_neg hcond]
    exact ⟨chunkGo_length b items hb, chunkGo_flatten b items⟩
  · intro h0
    rw [createBatches, if_pos (Or.inl h0)]

/-- Witness for `createBatches_partition` at items = [1,2,3,4,5], b = 2 and
b = 0. -/
theorem createBatches_partition_witness :
    ((createBatches [1, 2, 3, 4, 5] 2).length = (5 + 2 - 1) / 2 ∧
      (createBatches [1, 2, 3, 4, 5] 2).flatten = [1, 2, 3, 4, 5]) ∧
    createBatches ([1, 2, 3, 4, 5] : List Nat) 0 = [[1, 2, 3, 4, 5]] :=
  ⟨(createBatches_partition [1, 2, 3, 4, 5] 2).1 (by decide)
      (by simp),
    (createBatches_partition [1, 2, 3, 4, 5] 0).2 rfl⟩

/-- C8 counterexample: the claim quantifies over *every* `RateLimiter`
configuration, but with `maxRequests = 0` (window 60000 ms) recording exactly
`maxRequests` = 0 requests and then advancing time so that all recorded
timestamps (vacuously) lie outside the window leaves `checkLimit` returning
`false`, while the claim demands it "returns true again". -/
theorem checkLimit_zero_max_counterexample :
    (checkLimit ⟨0, 60000, none⟩ 1000000 (recordAll [])).1 = false := by
  decide

/-- C8 amended: for every configuration with `maxRequests > 0`, after recording
exactly `maxRequests` requests whose timestamps all lie inside the window at
probe time `now`, `checkLimit` returns `false`; at any probe time `now'` at
which every recorded timestamp has left the window it returns `true` again. -/
theorem checkLimit_window_roundtrip (cfg : RateLimiterConfig) (times : List Int)
    (now now' : Int) (hpos : 0 < cfg.maxRequests)
    (hlen : times.length = cfg.maxRequests)
    (hin : ∀ t ∈ times, now - t < cfg.windowMs) :
    (checkLimit cfg now (recordAll times)).1 = false ∧
    ((∀ t ∈ times, cfg.windowMs ≤ now' - t) →
      (checkLimit cfg now' (recordAll times)).1 = true) := by
  constructor
  · have hkeep : times.filter (fun time => decide (now - time < cfg.windowMs)) = times :=
      List.filter_eq_self.mpr (fun t ht => by simpa using hin t ht)
    simp only [checkLimit, recordAll_requests, hkeep, hlen, decide_eq_false_iff_not]
    omega
  · intro hout
    have hdrop : times.filter (fun time => decide (now' - time < cfg.windowMs)) = [] := by
      apply List.filter_eq_nil_iff.mpr
      intro t ht
      have := hout t ht
      simp only [decide_eq_true_eq]
      omega
    simp only [checkLimit, recordAll_requests, hdrop, List.length_nil,
      decide_eq_true_eq]
    omega

/-- C2 counterexample: the non-numeric string "abc" parses to NaN, yet the
'number' and 'currency' transformation rules return the number 0 for it — not
null, as the claim states.  (The source computes `parseFloat(value) || 0`, and
`NaN || 0` evaluates to `0`.) -/
theorem numeric_rules_nonnumeric_counterexample :
    numberRule (.vstr ['a', 'b', 'c']) = .vnum (some 0) ∧
    currencyRule (.vstr ['a', 'b', 'c']) = .vnum (some 0) ∧
    (JSVal.vnum (some 0) : JSVal) ≠ .vnull := by decide

theorem jsOr_num_zero (n : Option ℚ) :
    jsOr (.vnum n) (.vnum (some 0)) = .vnum (some (n.getD 0)) := by
  match n with
  | none => rfl
  | some q =>
    by_cases hq : q = 0
    · subst hq
      rfl
    · simp [jsOr, truthy, hq]

/-- C2 amended: the 'number' rule returns null exactly on null/undefined input
and otherwise the number `parseFloat(value)` with NaN collapsed to 0 — so
non-numeric input yields 0 (not null) and numeric input yields its parsed
float; the 'currency' rule returns null exactly on falsy input and otherwise
likewise `parseFloat(value)` with NaN collapsed to 0. -/
theorem numeric_rules_spec (v : JSVal) :
    numberRule v = (if v = .vnull ∨ v = .vundef then .vnull
      else .vnum (some ((parseFloat v).getD 0))) ∧
    currencyRule v = (if truthy v then .vnum (some ((parseFloat v).getD 0))
      else .vnull) := by
  constructor
  · rw [numberRule]
    by_cases h : v = .vnull ∨ v = .vundef
    · rw [if_pos h, if_pos h]
    · rw [if_neg h, if_neg h, jsOr_num_zero]
  · rw [currencyRule]
    by_cases h : truthy v = false
    · rw [if_pos h, if_neg (by simp [h])]
    · rw [if_neg h, if_pos (by simpa using h), jsOr_num_zero]

theorem digitChar_ne_s (k : Nat) : digitChar k ≠ 's' := by
  match k with
  | 0 => decide
  | 1 => decide
  | 2 => decide
  | 3 => decide
  | 4 => decide
  | 5 => decide
  | 6 => decide
  | 7 => decide
  | 8 => decide
  | _ + 9 =>
    show ('9' : Char) ≠ 's'
    decide

theorem natDigitsAux_mem_ne_s (fuel : Nat) :
    ∀ (n : Nat) (acc : List Char), (∀ c ∈ acc, c ≠ 's') →
      ∀ c ∈ natDigitsAux fuel n acc, c ≠ 's' := by
  induction fuel with
  | zero => exact fun n acc hacc c hc => hacc c hc
  | succ fuel ih =>
    intro n acc hacc c hc
    simp only [natDigitsAux] at hc
    by_cases hn : n < 10
    · rw [if_pos hn] at hc
      rcases List.mem_cons.mp hc with rfl | hc
      · exact digitChar_ne_s n
      · exact hacc c hc
    · rw [if_neg hn] at hc
      refine ih (n / 10) _ (fun d hd => ?_) c hc
      rcases List.mem_cons.mp hd with rfl | hd
      · exact digitChar_ne_s _
      · exact hacc d hd

theorem natDigits_ne_s (n : Nat) : ∀ c ∈ natDigits n, c ≠ 's' :=
  natDigitsAux_mem_ne_s (n + 1) n [] (by simp)

theorem skipped_infix_cons (c : Char) (rest : List Char) (hc : c ≠ 's') :
    (skippedLit <:+: c :: rest) ↔ (skippedLit <:+: rest) := by
  constructor
  · intro h
    rcases List.infix_cons_iff.mp h with hp | hi
    · exfalso
      rw [skippedLit] at hp
      exact hc (List.cons_prefix_cons.mp hp).1.symm
    · exact hi
  · exact fun h => List.infix_cons_iff.mpr (Or.inr h)

theorem skipped_infix_append_noS (a b : List Char) (ha : ∀ c ∈ a, c ≠ 's') :
    (skippedLit <:+: a ++ b) ↔ (skippedLit <:+: b) := by
  induction a with
  | nil => simp
  | cons c a ih =>
    rw [List.cons_append, skipped_infix_cons c (a ++ b) (ha c (by simp))]
    exact ih (fun d hd => ha d (by simp [hd]))

theorem skipped_infix_s_colon (rest : List Char) :
    (skippedLit <:+: 's' :: ':' :: rest) ↔ (skippedLit <:+: rest) := by
  constructor
  · intro h
    rcases List.infix_cons_iff.mp h with hp | hi
    · exfalso
      rw [skippedLit] at hp
      have h2 := (List.cons_prefix_cons.mp hp).2
      exact absurd (List.cons_prefix_cons.mp h2).1 (by decide)
    · exact (skipped_infix_cons ':' rest (by decide)).mp hi
  · intro h
    exact List.infix_cons_iff.mpr
      (Or.inr ((skipped_infix_cons ':' rest (by decide)).mpr h))

/-- The fixed parts of the exhausted-retry error string cannot contribute an
occurrence of `'skipped'`: the prefix before the cause contains no straddling
or internal match (its only `'s'` is followed by `':'`). -/
theorem skipped_infix_failedAfter (m : Nat) (cause : List Char) :
    (skippedLit <:+: failedAfterMessage m cause) ↔ (skippedLit <:+: cause) := by
  rw [failedAfterMessage, List.append_assoc, List.append_assoc]
  rw [skipped_infix_append_noS "Failed after ".toList _ (by decide)]
  rw [skipped_infix_append_noS (natDigits m) _ (natDigits_ne_s m)]
  have hsplit : " retries: ".toList ++ cause =
      [' ', 'r', 'e', 't', 'r', 'i', 'e'] ++ ('s' :: ':' :: ' ' :: cause) := rfl
  rw [hsplit]
  rw [skipped_infix_append_noS [' ', 'r', 'e', 't', 'r', 'i', 'e'] _ (by decide)]
  rw [skipped_infix_s_colon]
  exact skipped_infix_cons ' ' cause (by decide)

theorem containsSub_eq_true_iff (p s : List Char) :
    containsSub p s = true ↔ p <:+: s := by
  simp [containsSub]

/-- C10: `processBatch` counts a per-item result as skipped exactly when its
success flag is false and its error string contains the substring 'skipped';
for a result produced by exhausted retries — whose error string is
`Failed after N retries: <message>` — this happens exactly when the underlying
error message contains 'skipped' (the fixed parts of the template never
contribute an occurrence), and any other failure counts as failed. -/
theorem classify_skipped_iff (r : TaskResult) (maxRetries : Nat)
    (tid cause : List Char) (rc : Nat) :
    ((classifyResult r = .countedSkipped) ↔
      (r.success = false ∧ ∃ e, r.error = some e ∧ containsSub skippedLit e = true)) ∧
    ((classifyResult r = .countedFailed) ↔
      (r.success = false ∧ ¬ ∃ e, r.error = some e ∧ containsSub skippedLit e = true)) ∧
    ((classifyResult ⟨tid, false, some (failedAfterMessage maxRetries cause), rc⟩ =
        .countedSkipped) ↔ containsSub skippedLit cause = true) := by
  refine ⟨?_, ?_, ?_⟩
  · by_cases hs : r.success
    · simp [classifyResult, hs]
    · cases herr : r.error with
      | none => simp [classifyResult, hs, herr]
      | some e =>
        by_cases hc : containsSub skippedLit e = true <;>
          simp [classifyResult, hs, herr, hc]
  · by_cases hs : r.success
    · simp [classifyResult, hs]
    · cases herr : r.error with
      | none => simp [classifyResult, hs, herr]
      | some e =>
        by_cases hc : containsSub skippedLit e = true <;>
          simp [classifyResult, hs, herr, hc]
  · by_cases hc : skippedLit <:+: cause
    · have h1 : containsSub skippedLit (failedAfterMessage maxRetries cause) = true :=
        (containsSub_eq_true_iff _ _).mpr
          ((skipped_infix_failedAfter maxRetries cause).mpr hc)
      simp [classifyResult, h1, containsSub_eq_true_iff, hc]
    · have h1 : containsSub skippedLit (failedAfterMessage maxRetries cause) = false := by
        rw [Bool.eq_false_iff]
        intro hcontra
        exact hc ((skipped_infix_failedAfter maxRetries cause).mp
          ((containsSub_eq_true_iff _ _).mp hcontra))
      simp [classifyResult, h1, containsSub_eq_true_iff, hc]

theorem applyInserts (rows : List TaskMappingRow) :
    ∀ table : List TaskMappingRow,
      applyTaskMappingOps table (rows.map .insert) = table ++ rows := by
  induction rows with
  | nil => intro table; simp [applyTaskMappingOps]
  | cons r rest ih =>
    intro table
    simp only [List.map_cons, applyTaskMappingOps, List.foldl_cons]
    have h := ih (table ++ [r])
    simp only [applyTaskMappingOps] at h
    simp only [applyTaskMappingOp]
    rw [h, List.append_assoc, List.singleton_append]

/-- C5: every `task_mappings` write performed by `migrateTask` — including the
subtask recursion through `migrateSubtask` — is an insert of a fresh row, and
the whole trace appends to the table: the `monday_item_id` of every existing
row is left untouched, so a replay or retry inserts fresh mapping rows and
never overwrites an existing mapping's target item id. -/
theorem migrateTask_never_overwrites (table : List TaskMappingRow)
    (replicationId taskId itemId : List Char) (parentId : Option (List Char))
    (subpairs : List (List Char × List Char)) :
    (∀ op ∈ migrateTaskOps replicationId taskId itemId parentId subpairs,
      ∃ row, op = .insert row) ∧
    table <+: applyTaskMappingOps table
      (migrateTaskOps replicationId taskId itemId parentId subpairs) := by
  have hshape : migrateTaskOps replicationId taskId itemId parentId subpairs =
      ((⟨replicationId, taskId, itemId, parentId, none, "synced".toList⟩ :
          TaskMappingRow) ::
        subpairs.map fun p =>
          (⟨replicationId, p.1, p.2, some taskId, some itemId,
            "synced".toList⟩ : TaskMappingRow)).map .insert := by
    simp only [migrateTaskOps, migrateSubtaskOp, List.map_cons, List.map_map]
    rfl
  constructor
  · intro op hop
    rw [hshape] at hop
    obtain ⟨row, _, hrow⟩ := List.mem_map.mp hop
    exact ⟨row, hrow.symm⟩
  · rw [hshape, applyInserts]
    exact List.prefix_append _ _

/-- Witness for `migrateTask_never_overwrites`: one migrated task with one
subtask, against a table already holding one mapping row. -/
theorem migrateTask_never_overwrites_witness :
    (∃ row, (TaskMappingOp.insert
        ⟨['r'], ['t'], ['i'], none, none, "synced".toList⟩) = .insert row) ∧
    [(⟨['r'], ['a'], ['b'], none, none, "synced".toList⟩ : TaskMappingRow)] <+:
      applyTaskMappingOps
        [⟨['r'], ['a'], ['b'], none, none, "synced".toList⟩]
        (migrateTaskOps ['r'] ['t'] ['i'] none [(['s'], ['j'])]) :=
  ⟨(migrateTask_never_overwrites [⟨['r'], ['a'], ['b'], none, none,
      "synced".toList⟩] ['r'] ['t'] ['i'] none [(['s'], ['j'])]).1
      (.insert ⟨['r'], ['t'], ['i'], none, none, "synced".toList⟩) (by decide),
    (migrateTask_never_overwrites [⟨['r'], ['a'], ['b'], none, none,
      "synced".toList⟩] ['r'] ['t'] ['i'] none [(['s'], ['j'])]).2⟩

theorem syncFilesLoop_spec (boardItems : List MondayItem) (skipDuplicates : Bool)
    (upl : ClickUpTask → ClickUpAttachment → Except (List Char) Unit) :
    ∀ (tasks : List ClickUpTask) (res : FileSyncResult)
      (recs : List TransferRecord),
      (syncFilesLoop boardItems skipDuplicates upl tasks res recs).1.filesSkipped =
        res.filesSkipped ∧
      (syncFilesLoop boardItems skipDuplicates upl tasks res recs).1.filesTransferred =
        res.filesTransferred +
          ((tasks.filter fun t =>
              (syncTaskFiles t boardItems skipDuplicates (upl t)).2.isOk).map
            fun t => t.attachments.length).sum := by
  intro tasks
  induction tasks with
  | nil => intro res recs; simp [syncFilesLoop]
  | cons t rest ih =>
    intro res recs
    rw [syncFilesLoop]
    cases hsync : syncTaskFiles t boardItems skipDuplicates (upl t) with
    | mk trecs out =>
      cases out with
      | ok u =>
        have h := ih { res with filesTransferred :=
            res.filesTransferred + t.attachments.length } (recs ++ trecs)
        refine ⟨h.1, ?_⟩
        rw [h.2]
        have hfil : (t :: rest).filter (fun t =>
            (syncTaskFiles t boardItems skipDuplicates (upl t)).2.isOk) =
            t :: rest.filter (fun t =>
              (syncTaskFiles t boardItems skipDuplicates (upl t)).2.isOk) := by
          rw [List.filter_cons_of_pos]
          rw [hsync]
          rfl
        rw [hfil]
        simp [Nat.add_assoc]
      | error e =>
        have h := ih { res with success := false, errors := res.errors ++ [e] }
          (recs ++ trecs)
        refine ⟨h.1, ?_⟩
        rw [h.2]
        have hfil : (t :: rest).filter (fun t =>
            (syncTaskFiles t boardItems skipDuplicates (upl t)).2.isOk) =
            rest.filter (fun t =>
              (syncTaskFiles t boardItems skipDuplicates (upl t)).2.isOk) := by
          rw [List.filter_cons_of_neg]
          rw [hsync]
          simp [Except.isOk, Except.toBool]
        rw [hfil]

/-- C9: `syncFiles` never increments `filesSkipped` (it is 0 in every result),
and `filesTransferred` is the sum of the full attachment counts of exactly the
tasks whose per-task sync does not throw — including tasks with no matching
target item and attachments skipped as duplicates or rejected by validation,
none of which were uploaded. -/
theorem syncFiles_counters (tasks : List ClickUpTask)
    (boardItems : List MondayItem) (skipDuplicates : Bool)
    (upl : ClickUpTask → ClickUpAttachment → Except (List Char) Unit) :
    (syncFiles tasks boardItems skipDuplicates upl).1.filesSkipped = 0 ∧
    (syncFiles tasks boardItems skipDuplicates upl).1.filesTransferred =
      ((tasks.filter fun t =>
          (syncTaskFiles t boardItems skipDuplicates (upl t)).2.isOk).map
        fun t => t.attachments.length).sum := by
  have h := syncFilesLoop_spec boardItems skipDuplicates upl tasks
    ⟨true, 0, 0, []⟩ []
  exact ⟨h.1, by rw [syncFiles]; rw [h.2]; simp⟩

theorem head_filter_decomp (p : α → Bool) :
    ∀ (l : List α) (x : α), (l.filter p).head? = some x →
      ∃ pre post, l = pre ++ x :: post ∧ p x = true ∧
        ∀ y ∈ pre, p y = false := by
  intro l
  induction l with
  | nil => intro x h; simp at h
  | cons a rest ih =>
    intro x h
    by_cases hp : p a
    · rw [List.filter_cons_of_pos hp] at h
      rw [List.head?_cons, Option.some_inj] at h
      subst h
      exact ⟨[], rest, by simp, hp, by simp⟩
    · rw [List.filter_cons_of_neg hp] at h
      obtain ⟨pre, post, hdec, hx, hpre⟩ := ih x h
      refine ⟨a :: pre, post, by rw [hdec, List.cons_append], hx, ?_⟩
      intro y hy
      rcases List.mem_cons.mp hy with rfl | hy
      · simpa using hp
      · exact hpre y hy

/-- C3 counterexample: with board items named "b task a" then "task a" and a
task named "Task A", the sync workflow picks "b task a" (the first containment
match) even though an exact case-insensitive match exists; and with a board
item "abc" and a task "abc task", the workflow finds nothing (it never tests
item-name-contained-in-task-name) though the claimed bidirectional fallback
matches.  `findMatchStrategies` (the uncalled `findMatchingItems` logic)
realises the claimed behaviour, and differs from the workflow's on both
inputs. -/
theorem fileSync_match_counterexample :
    (chosenItem [⟨['1'], "b task a".toList, []⟩, ⟨['2'], "task a".toList, []⟩]
        "Task A".toList = some ⟨['1'], "b task a".toList, []⟩) ∧
    (findMatchStrategies
        [⟨['1'], "b task a".toList, []⟩, ⟨['2'], "task a".toList, []⟩]
        "Task A".toList = some ⟨['2'], "task a".toList, []⟩) ∧
    (chosenItem [⟨['3'], "abc".toList, []⟩] "abc task".toList = none) ∧
    (findMatchStrategies [⟨['3'], "abc".toList, []⟩] "abc task".toList =
      some ⟨['3'], "abc".toList, []⟩) := by
  decide

/-- C3 amended: the file-sync workflow's target selection takes the *first*
board item whose lowercased name contains the lowercased task name; exact
matches receive no priority, and containment of the item name in the task name
is never tested.  When no item name contains the task name, the task is
skipped without error and nothing is persisted. -/
theorem syncTaskFiles_first_containment (task : ClickUpTask)
    (boardItems : List MondayItem) (skipDuplicates : Bool)
    (upl : ClickUpAttachment → Except (List Char) Unit) :
    (∀ item, chosenItem boardItems task.name = some item →
      ∃ pre post, boardItems = pre ++ item :: post ∧
        containsSub (lowerStr task.name) (lowerStr item.name) = true ∧
        ∀ y ∈ pre, containsSub (lowerStr task.name) (lowerStr y.name) = false) ∧
    ((∀ item ∈ boardItems,
        containsSub (lowerStr task.name) (lowerStr item.name) = false) →
      syncTaskFiles task boardItems skipDuplicates upl = ([], .ok ())) := by
  constructor
  · intro item h
    exact head_filter_decomp _ boardItems item h
  · intro hnone
    have hnil : searchItemsByName boardItems task.name = [] := by
      rw [searchItemsByName]
      exact List.filter_eq_nil_iff.mpr
        (fun it hit => by simp [hnone it hit])
    rw [syncTaskFiles, hnil]

/-- Witness for `syncTaskFiles_first_containment`: part one at the board of
the counterexample, part two at a board with no containment match. -/
theorem syncTaskFiles_first_containment_witness :
    (∃ pre post,
      ([⟨['1'], "b task a".toList, []⟩, ⟨['2'], "task a".toList, []⟩] :
          List MondayItem) =
        pre ++ (⟨['1'], "b task a".toList, []⟩ : MondayItem) :: post ∧
      containsSub (lowerStr "Task A".toList)
        (lowerStr (MondayItem.mk ['1'] "b task a".toList []).name) = true ∧
      ∀ y ∈ pre,
        containsSub (lowerStr "Task A".toList) (lowerStr y.name) = false) ∧
    syncTaskFiles ⟨['t'], "zzz".toList, []⟩ [⟨['1'], "abc".toList, []⟩] true
      (fun _ => .ok ()) = ([], .ok ()) := by
  constructor
  · have h := (syncTaskFiles_first_containment ⟨['t'], "Task A".toList, []⟩
      [⟨['1'], "b task a".toList, []⟩, ⟨['2'], "task a".toList, []⟩] true
      (fun _ => .ok ())).1 ⟨['1'], "b task a".toList, []⟩ (by decide)
    exact h
  · exact (syncTaskFiles_first_containment ⟨['t'], "zzz".toList, []⟩
      [⟨['1'], "abc".toList, []⟩] true (fun _ => .ok ())).2 (by decide)

/-- C4 counterexample: an attachment rejected by validation (600 MB exceeds
the 500 MB default limit) resolves without error, yet zero TransferRecords
are persisted; and an attachment whose download/upload throws resolves as a
failure with zero TransferRecords persisted — the claim demands exactly one
record in both cases. -/
theorem transferAttachment_counterexample :
    transferAttachment ['t'] ⟨"big.bin".toList, 600 * 1024 * 1024, none⟩ ['i']
        [] true (.ok ()) = ([], .ok ()) ∧
    transferAttachment ['t'] ⟨"a.txt".toList, 10, none⟩ ['i'] [] true
        (.error "net".toList) = ([], .error "net".toList) :=
  ⟨rfl, rfl⟩

theorem transferAttachment_status (taskId : List Char) (att : ClickUpAttachment)
    (itemId : List Char) (assets : List MondayAsset) (skipDup : Bool)
    (upl : Except (List Char) Unit) :
    ∀ rec ∈ (transferAttachment taskId att itemId assets skipDup upl).1,
      rec.status = .skipped ∨ rec.status = .transferred := by
  intro rec hrec
  rw [transferAttachment.eq_def] at hrec
  by_cases hv : validateFile att = false
  · rw [if_pos hv] at hrec
    simp at hrec
  · rw [if_neg hv] at hrec
    by_cases hd : (skipDup && (checkByNameAndSize att assets).isSome) = true
    · rw [if_pos hd] at hrec
      rcases List.mem_singleton.mp hrec with rfl
      exact Or.inl rfl
    · rw [if_neg hd] at hrec
      cases upl with
      | ok u =>
        rcases List.mem_singleton.mp hrec with rfl
        exact Or.inr rfl
      | error e => simp at hrec

theorem syncAttachmentsLoop_status (taskId itemId : List Char)
    (assets : List MondayAsset) (skipDup : Bool)
    (upl : ClickUpAttachment → Except (List Char) Unit) :
    ∀ (atts : List ClickUpAttachment) rec,
      rec ∈ (syncAttachmentsLoop taskId itemId assets skipDup upl atts).1 →
      rec.status = .skipped ∨ rec.status = .transferred := by
  intro atts
  induction atts with
  | nil => intro rec hrec; simp [syncAttachmentsLoop] at hrec
  | cons a rest ih =>
    intro rec hrec
    rw [syncAttachmentsLoop] at hrec
    cases htr : transferAttachment taskId a itemId assets skipDup (upl a) with
    | mk recs out =>
      rw [htr] at hrec
      cases out with
      | ok u =>
        rcases List.mem_append.mp hrec with hrec | hrec
        · exact transferAttachment_status taskId a itemId assets skipDup
            (upl a) rec (by rw [htr]; exact hrec)
        · exact ih rec hrec
      | error e =>
        exact transferAttachment_status taskId a itemId assets skipDup
          (upl a) rec (by rw [htr]; exact hrec)

theorem syncTaskFiles_status (task : ClickUpTask) (boardItems : List MondayItem)
    (skipDup : Bool) (upl : ClickUpAttachment → Except (List Char) Unit) :
    ∀ rec ∈ (syncTaskFiles task boardItems skipDup upl).1,
      rec.status = .skipped ∨ rec.status = .transferred := by
  intro rec hrec
  rw [syncTaskFiles] at hrec
  cases hsearch : searchItemsByName boardItems task.name with
  | nil => rw [hsearch] at hrec; simp at hrec
  | cons item restItems =>
    rw [hsearch] at hrec
    exact syncAttachmentsLoop_status task.id item.id item.assets skipDup upl
      task.attachments rec hrec

theorem syncFilesLoop_status (boardItems : List MondayItem) (skipDup : Bool)
    (upl : ClickUpTask → ClickUpAttachment → Except (List Char) Unit) :
    ∀ (tasks : List ClickUpTask) (res : FileSyncResult)
      (recs : List TransferRecord),
      (∀ rec ∈ recs, rec.status = .skipped ∨ rec.status = .transferred) →
      ∀ rec ∈ (syncFilesLoop boardItems skipDup upl tasks res recs).2,
        rec.status = .skipped ∨ rec.status = .transferred := by
  intro tasks
  induction tasks with
  | nil =>
    intro res recs hrecs rec hrec
    exact hrecs rec hrec
  | cons t rest ih =>
    intro res recs hrecs rec hrec
    rw [syncFilesLoop] at hrec
    cases hsync : syncTaskFiles t boardItems skipDup (upl t) with
    | mk trecs out =>
      rw [hsync] at hrec
      have hboth : ∀ r ∈ recs ++ trecs,
          r.status = .skipped ∨ r.status = .transferred := by
        intro r hr
        rcases List.mem_append.mp hr with hr | hr
        · exact hrecs r hr
        · exact syncTaskFiles_status t boardItems skipDup (upl t) r
            (by rw [hsync]; exact hr)
      cases out with
      | ok u => exact ih _ _ hboth rec hrec
      | error e => exact ih _ _ hboth rec hrec

/-- C4 corrected: in the file-sync path only duplicate skips and completed
uploads persist a TransferRecord — exactly one, with status 'skipped'
resp. 'transferred'. Validation rejections resolve without error and persist
nothing; download/upload failures propagate with nothing persisted; across a
whole `syncFiles` run no record with status 'failed' (or 'pending') is ever
written — failures surface only in the in-memory result. -/
theorem transferRecords_spec (taskId : List Char) (att : ClickUpAttachment)
    (itemId : List Char) (assets : List MondayAsset) (skipDup : Bool)
    (upl : Except (List Char) Unit) (tasks : List ClickUpTask)
    (boardItems : List MondayItem) (sd : Bool)
    (upl2 : ClickUpTask → ClickUpAttachment → Except (List Char) Unit) :
    (validateFile att = false →
      transferAttachment taskId att itemId assets skipDup upl = ([], .ok ())) ∧
    (validateFile att = true →
      (skipDup && (checkByNameAndSize att assets).isSome) = true →
      transferAttachment taskId att itemId assets skipDup upl =
        ([⟨taskId, itemId, att.title, att.size, .skipped⟩], .ok ())) ∧
    (validateFile att = true →
      (skipDup && (checkByNameAndSize att assets).isSome) = false →
      upl = .ok () →
      transferAttachment taskId att itemId assets skipDup upl =
        ([⟨taskId, itemId, att.title, att.size, .transferred⟩], .ok ())) ∧
    (validateFile att = true →
      (skipDup && (checkByNameAndSize att assets).isSome) = false →
      ∀ e, upl = .error e →
        transferAttachment taskId att itemId assets skipDup upl =
          ([], .error e)) ∧
    (∀ rec ∈ (syncFiles tasks boardItems sd upl2).2,
      rec.status = .skipped ∨ rec.status = .transferred) := by
  refine ⟨?_, ?_, ?_, ?_, ?_⟩
  · intro hv
    rw [transferAttachment.eq_def, if_pos hv]
  · intro hv hd
    rw [transferAttachment.eq_def, if_neg (by rw [hv]; simp), if_pos hd]
  · intro hv hd hok
    have hd' : ¬ (skipDup && (checkByNameAndSize att assets).isSome) = true := by
      rw [hd]
      simp
    rw [transferAttachment.eq_def, if_neg (by rw [hv]; simp), if_neg hd', hok]
  · intro hv hd e he
    have hd' : ¬ (skipDup && (checkByNameAndSize att assets).isSome) = true := by
      rw [hd]
      simp
    rw [transferAttachment.eq_def, if_neg (by rw [hv]; simp), if_neg hd', he]
  · exact syncFilesLoop_status boardItems sd upl2 tasks ⟨true, 0, 0, []⟩ []
      (by simp)

/-- Witness for `transferRecords_spec`: a duplicate (case-insensitive name and
equal size already on the item) is persisted as exactly one 'skipped' record;
a valid non-duplicate whose upload completes is persisted as exactly one
'transferred' record; an oversized file resolves with nothing persisted. -/
theorem transferRecords_spec_witness :
    transferAttachment ['t'] ⟨"a.txt".toList, 10, none⟩ ['i']
        [⟨"A.TXT".toList, 10⟩] true (.ok ()) =
      ([⟨['t'], ['i'], "a.txt".toList, 10, .skipped⟩], .ok ()) ∧
    transferAttachment ['t'] ⟨"a.txt".toList, 10, none⟩ ['i']
        [] true (.ok ()) =
      ([⟨['t'], ['i'], "a.txt".toList, 10, .transferred⟩], .ok ()) ∧
    transferAttachment ['t'] ⟨"big.bin".toList, 600 * 1024 * 1024, none⟩ ['i']
        [] true (.ok ()) = ([], .ok ()) :=
  ⟨(transferRecords_spec ['t'] ⟨"a.txt".toList, 10, none⟩ ['i']
      [⟨"A.TXT".toList, 10⟩] true (.ok ()) [] [] true
      (fun _ _ => .ok ())).2.1 (by decide) (by decide),
    (transferRecords_spec ['t'] ⟨"a.txt".toList, 10, none⟩ ['i']
      [] true (.ok ()) [] [] true (fun _ _ => .ok ())).2.2.1
      (by decide) (by decide) rfl,
    (transferRecords_spec ['t'] ⟨"big.bin".toList, 600 * 1024 * 1024, none⟩
      ['i'] [] true (.ok ()) [] [] true (fun _ _ => .ok ())).1 (by decide)⟩

theorem fillLoop_ids (mp : Nat) :
    ∀ (queue : List τ) (infl : List (Nat × τ)) (nid : Nat),
      (∀ p ∈ infl, p.1 < nid) →
      (∀ p ∈ (fillLoop mp queue infl nid).2.1, p.1 < (fillLoop mp queue infl nid).2.2) := by
  intro queue
  induction queue with
  | nil => intro infl nid h; simpa [fillLoop] using h
  | cons t rest ih =>
    intro infl nid h
    rw [fillLoop]
    by_cases hlen : infl.length < mp
    · rw [if_pos hlen]
      apply ih
      intro p hp
      rcases List.mem_append.mp hp with hp | hp
      · exact Nat.lt_succ_of_lt (h p hp)
      · rcases List.mem_singleton.mp hp with rfl
        exact Nat.lt_succ_self nid
    · rw [if_neg hlen]
      exact h

theorem fillLoop_keeps_work (mp : Nat) :
    ∀ (queue : List τ) (infl : List (Nat × τ)) (nid : Nat),
      (queue ≠ [] ∨ infl ≠ []) →
      ((fillLoop mp queue infl nid).1 ≠ [] ∨ (fillLoop mp queue infl nid).2.1 ≠ []) := by
  intro queue
  induction queue with
  | nil =>
    intro infl nid h
    rcases h with h | h
    · exact absurd rfl h
    · simpa [fillLoop] using h
  | cons t rest ih =>
    intro infl nid _
    rw [fillLoop]
    by_cases hlen : infl.length < mp
    · rw [if_pos hlen]
      exact ih (infl ++ [(nid, t)]) (nid + 1) (Or.inr (by simp))
    · rw [if_neg hlen]
      exact Or.inl (by simp)

theorem findIdx?_eq_none_of_ids_lt (n : Nat) :
    ∀ l : List (Nat × τ), (∀ p ∈ l, p.1 < n) →
      l.findIdx? (fun p => p.1 == n) = none := by
  intro l h
  rw [List.findIdx?_eq_none_iff]
  intro x hx
  have hxn := h x hx
  have hne2 : x.1 ≠ n := by omega
  simp [hne2]

/-- C1 (code bug): started from any *non-empty* task list, the parallel batch
loop of `processParallel` never terminates, whatever the concurrency bound and
however much fuel it is given.  Line 168 of batch-processor.ts compares
in-flight promises against `Promise.resolve(result)` — a freshly allocated
promise, reference-equal to none of them — so the completed promise is never
removed from the in-flight list, the loop condition
`queue.length > 0 || inProgress.length > 0` stays true, and the first settled
result is appended to `results` again on every iteration. -/
theorem processParallel_diverges (process : τ → ρ) (maxParallel : Nat)
    (tasks : List τ) (hne : tasks ≠ []) (fuel : Nat) :
    runParallel process maxParallel fuel tasks [] [] 0 = none := by
  suffices h : ∀ (fuel : Nat) (queue : List τ) (infl : List (Nat × τ))
      (results : List ρ) (nid : Nat),
      (∀ p ∈ infl, p.1 < nid) → (queue ≠ [] ∨ infl ≠ []) →
      runParallel process maxParallel fuel queue infl results nid = none by
    exact h fuel tasks [] [] 0 (by simp) (Or.inl hne)
  intro fuel
  induction fuel with
  | zero => intro queue infl results nid _ _; rfl
  | succ fuel ih =>
    intro queue infl results nid hids hwork
    rw [runParallel]
    have hcond : ¬ ((queue.isEmpty && infl.isEmpty) = true) := by
      intro hb
      rw [Bool.and_eq_true] at hb
      rcases hwork with h | h
      · exact h (List.isEmpty_iff.mp hb.1)
      · exact h (List.isEmpty_iff.mp hb.2)
    rw [if_neg hcond]
    have hF1 := fillLoop_ids maxParallel queue infl nid hids
    have hF2 := fillLoop_keeps_work maxParallel queue infl nid hwork
    rcases hfl : fillLoop maxParallel queue infl nid with ⟨q1, i1, f1⟩
    rw [hfl] at hF1 hF2
    simp only at hF1 hF2
    cases i1 with
    | nil => rfl
    | cons hd tl =>
      have hfind : ((hd :: tl).findIdx? fun p => p.1 == f1) = none :=
        findIdx?_eq_none_of_ids_lt f1 (hd :: tl) hF1
      dsimp only
      rw [hfind]
      exact ih q1 (hd :: tl) (results ++ [process hd.2]) (f1 + 1)
        (fun p hp => Nat.lt_succ_of_lt (hF1 p hp))
        (Or.inr (by simp))

/-- Witness for `processParallel_diverges`: a single-task batch with the
default concurrency bound 5 does not finish within 100 loop iterations (nor
any other number). -/
theorem processParallel_diverges_witness :
    runParallel (fun t : Nat => t) 5 100 [0] [] [] 0 = none :=
  processParallel_diverges (fun t : Nat => t) 5 [0] (by decide) 100

/-- C7: for every operation run through `ExponentialBackoff.execute`:
(1) failing k < maxAttempts times then succeeding returns the success value,
resets the attempt counter to zero, and sleeps
min(baseDelay·2^(a-1), maxDelay) before retry attempt a;
(2) failing on every attempt throws a terminal error whose message references
the attempt count and wraps the last cause;
(3) with a supplied retryable-error filter, an error matching no entry
propagates immediately, with no retry and no delay. -/
theorem backoff_execute_spec (cfg : BackoffConfig) (op : Nat → Except JsError V) :
    (∀ (k : Nat) (v : V),
      k < cfg.maxAttempts →
      (∀ i, i < k → ∃ e, op i = .error e) →
      op k = .ok v →
      execute cfg none op =
        .ok v 0 ((List.range k).map fun i =>
          min (cfg.baseDelay * 2 ^ i) cfg.maxDelay)) ∧
    (∀ (es : Nat → JsError),
      (∀ i, i < max cfg.maxAttempts 1 → op i = .error (es i)) →
      execute cfg none op =
        .errExhausted
          ⟨maxRetryMessage cfg.maxAttempts
            (es (max cfg.maxAttempts 1 - 1)).message, none⟩
          ((List.range (max cfg.maxAttempts 1 - 1)).map fun i =>
            min (cfg.baseDelay * 2 ^ i) cfg.maxDelay)) ∧
    (∀ (pats : List (List Char)) (e : JsError),
      pats ≠ [] →
      op 0 = .error e →
      (∀ p ∈ pats, errorMatches e p = false) →
      execute cfg (some pats) op = .errNonRetryable e []) := by
  refine ⟨?_, ?_, ?_⟩
  · intro k v hk herr hok
    have h := executeAux_ok cfg none op k 0 0 [] v (by omega)
      (fun i hi => by
        obtain ⟨e, he⟩ := herr i hi
        exact ⟨e, by simpa using he, rfl⟩)
      (by simpa using hok)
    simpa using h
  · intro es herr
    have h := executeAux_exhausted cfg none op es (max cfg.maxAttempts 1 - 1) 0 0 []
      (by omega)
      (fun i hi => by
        refine ⟨by simpa using herr i (by omega), rfl⟩)
    simpa using h
  · intro pats e hne hop hmiss
    rw [execute, executeAux, hop]
    dsimp only
    have hthrow : throwsNonRetryable (some pats) e = true := by
      simp only [throwsNonRetryable, Bool.and_eq_true, Bool.not_eq_true']
      constructor
      · cases pats with
        | nil => exact absurd rfl hne
        | cons p rest => rfl
      · exact List.any_eq_false.mpr (fun p hp => by simp [hmiss p hp])
    rw [hthrow]
    simp

/-- Witness for `backoff_execute_spec` with the default configuration
(3 attempts, base 1000 ms, cap 30000 ms): an operation failing twice then
returning 42 succeeds after delays 1000 and 2000 with the counter reset;
an always-failing operation exhausts the three attempts; an error not
matching the filter list propagates immediately. -/
theorem backoff_execute_spec_witness :
    execute ⟨3, 1000, 30000⟩ none
        (fun i => if i < 2 then .error ⟨['b'], none⟩ else .ok (42 : Nat)) =
      .ok 42 0 [1000, 2000] ∧
    execute ⟨3, 1000, 30000⟩ none
        (fun _ => (.error ⟨['b'], none⟩ : Except JsError Nat)) =
      .errExhausted ⟨maxRetryMessage 3 ['b'], none⟩ [1000, 2000] ∧
    execute ⟨3, 1000, 30000⟩ (some [['t']])
        (fun _ => (.error ⟨['f'], none⟩ : Except JsError Nat)) =
      .errNonRetryable ⟨['f'], none⟩ [] := by
  refine ⟨?_, ?_, ?_⟩
  · have h := (backoff_execute_spec ⟨3, 1000, 30000⟩
        (fun i => if i < 2 then .error ⟨['b'], none⟩ else .ok (42 : Nat))).1
      2 42 (by decide) (fun i hi => ⟨⟨['b'], none⟩, if_pos hi⟩) rfl
    rw [h]
    decide
  · have h := (backoff_execute_spec ⟨3, 1000, 30000⟩
        (fun _ => (.error ⟨['b'], none⟩ : Except JsError Nat))).2.1
      (fun _ => ⟨['b'], none⟩) (fun i _ => rfl)
    rw [h]
    decide
  · exact (backoff_execute_spec ⟨3, 1000, 30000⟩
      (fun _ => (.error ⟨['f'], none⟩ : Except JsError Nat))).2.2
      [['t']] ⟨['f'], none⟩ (by decide) rfl (by decide)

/-- Witness for `checkLimit_window_roundtrip`: two requests at times 0 and 500
against a limit of 2 per 1000 ms; the probe at time 600 is denied, the probe at
time 5000 is allowed again. -/
theorem checkLimit_window_roundtrip_witness :
    (checkLimit ⟨2, 1000, none⟩ 600 (recordAll [0, 500])).1 = false ∧
    (checkLimit ⟨2, 1000, none⟩ 5000 (recordAll [0, 500])).1 = true := by
  have h := checkLimit_window_roundtrip ⟨2, 1000, none⟩ [0, 500] 600 5000
    (by decide) (by decide) (by decide)
  exact ⟨h.1, h.2 (by decide)⟩

end ClickUpMondaySync
